import Mathlib

/-!
# SquiggleSync backend — verification of the room state pipeline

A shallow embedding of the SquiggleSync collaborative-whiteboard backend:
the event validator (`validation.util.ts`), the conflict resolver
(`conflict-resolver.service.ts`), the room state service
(`room-state.service.ts`), the WebSocket membership table
(`websocket-rooms.service.ts`), and the WebSocket / HTTP ingress handlers
(`handlers/index.ts`).

JavaScript runtime values that flow through the untyped validator are
modelled by `JsNum` (an IEEE-style number: a finite rational, `NaN`, or a
signed infinity) and `JsVal` (undefined, null, booleans, numbers, strings,
arrays, objects), with JS truthiness and comparison semantics made explicit.
-/

/-- A JavaScript number: either a finite value (modelled as a rational),
`NaN`, or one of the two infinities. -/
inductive JsNum where
  | fin (q : ℚ)
  | nan
  | posInf
  | negInf
deriving DecidableEq

/-- JS `Number.isFinite` / global `isFinite` on a value already known to be
a number. -/
def JsNum.isFin : JsNum → Bool
  | .fin _ => true
  | _ => false

/-- JS `<` on numbers: comparisons involving `NaN` are false. -/
def JsNum.jlt : JsNum → JsNum → Bool
  | .nan, _ => false
  | _, .nan => false
  | .fin a, .fin b => decide (a < b)
  | .fin _, .posInf => true
  | .fin _, .negInf => false
  | .posInf, _ => false
  | .negInf, .negInf => false
  | .negInf, _ => true

/-- JS `<=` on numbers: comparisons involving `NaN` are false. -/
def JsNum.jle : JsNum → JsNum → Bool
  | .nan, _ => false
  | _, .nan => false
  | .fin a, .fin b => decide (a ≤ b)
  | .fin _, .posInf => true
  | .fin _, .negInf => false
  | .posInf, .posInf => true
  | .posInf, _ => false
  | .negInf, _ => true

/-- JS `>` on numbers, i.e. `<` with the arguments swapped (false on `NaN`). -/
def JsNum.jgt (a b : JsNum) : Bool := JsNum.jlt b a

/-- JS truthiness of a number: `0` and `NaN` are falsy. -/
def JsNum.truthy : JsNum → Bool
  | .fin q => decide (q ≠ 0)
  | .nan => false
  | _ => true

/-- A JavaScript runtime value, as seen by the untyped validator. -/
inductive JsVal where
  | undefinedv
  | nullv
  | jsbool (b : Bool)
  | num (n : JsNum)
  | str (s : String)
  | arr (elems : List JsVal)
  | obj (fields : List (String × JsVal))

/-- JS truthiness. -/
def JsVal.truthy : JsVal → Bool
  | .undefinedv => false
  | .nullv => false
  | .jsbool b => b
  | .num n => n.truthy
  | .str s => decide (s ≠ "")
  | .arr _ => true
  | .obj _ => true

/-- `typeof v === 'string'`. -/
def JsVal.isString : JsVal → Bool
  | .str _ => true
  | _ => false

/-- `typeof v === 'number'`. -/
def JsVal.isNumber : JsVal → Bool
  | .num _ => true
  | _ => false

/-- `Array.isArray(v)`. -/
def JsVal.isArray : JsVal → Bool
  | .arr _ => true
  | _ => false

/-- Property read `v[k]` on an object; `undefined` when the key is absent or
the value is not an object. -/
def JsVal.getField : JsVal → String → JsVal
  | .obj fields, k => ((fields.find? (fun p => p.1 == k)).map Prod.snd).getD .undefinedv
  | _, _ => .undefinedv

/-- The untyped shape of an inbound event object: exactly the properties the
validators and handlers read.  Absent properties are `undefined`. -/
structure RawEvent where
  type : JsVal := .undefinedv
  userId : JsVal := .undefinedv
  roomId : JsVal := .undefinedv
  timestamp : JsVal := .undefinedv
  sequence : JsVal := .undefinedv
  points : JsVal := .undefinedv
  path : JsVal := .undefinedv
  color : JsVal := .undefinedv
  strokeWidth : JsVal := .undefinedv
  region : JsVal := .undefinedv

/-- `validateBaseEvent` (`validation.util.ts:28-36`): presence (JS
truthiness) and `typeof` checks on `type`, `userId`, `roomId`, `timestamp`.
The `if (!event)` guard concerns a null/undefined argument, which the event
object modelled by `RawEvent` is not. -/
def validateBaseEvent (e : RawEvent) : Bool :=
  e.type.truthy && e.type.isString &&
  (e.userId.truthy && e.userId.isString) &&
  (e.roomId.truthy && e.roomId.isString) &&
  (e.timestamp.truthy && e.timestamp.isNumber)

/-- One element of the `points` / `path` array: a two-element array of
finite numbers (`validation.util.ts:52-56`). -/
def validPoint (p : JsVal) : Bool :=
  match p with
  | .arr l =>
      decide (l.length = 2) &&
      (match l with
       | [a, b] =>
           a.isNumber && b.isNumber &&
           (match a, b with
            | .num x, .num y => x.isFin && y.isFin
            | _, _ => false)
       | _ => false)
  | _ => false

/-- The regex `^#[0-9A-Fa-f]{6}$`. -/
def isHexColor (s : String) : Bool :=
  match s.toList with
  | '#' :: rest =>
      decide (rest.length = 6) &&
      rest.all (fun c =>
        (decide ('0' ≤ c) && decide (c ≤ '9')) ||
        (decide ('A' ≤ c) && decide (c ≤ 'F')) ||
        (decide ('a' ≤ c) && decide (c ≤ 'f')))
  | _ => false

/-- The `strokeWidth` checks of `validateDrawLineEvent` /
`validateDrawPathEvent`: `typeof === 'number'`, then
`strokeWidth <= 0 || strokeWidth > 100` rejects.  There is no `isFinite`
check on `strokeWidth` in the source. -/
def strokeWidthCheck (v : JsVal) : Bool :=
  match v with
  | .num n => !(n.jle (.fin 0)) && !(n.jgt (.fin 100))
  | _ => false

/-- `validateDrawLineEvent` (`validation.util.ts:43-67`). -/
def validateDrawLineEvent (e : RawEvent) : Bool :=
  validateBaseEvent e &&
  (match e.type with | .str "DRAW_LINE" => true | _ => false) &&
  (match e.points with
   | .arr ps => decide (2 ≤ ps.length) && ps.all validPoint
   | _ => false) &&
  (e.color.truthy && e.color.isString) &&
  (match e.color with | .str s => isHexColor s | _ => false) &&
  strokeWidthCheck e.strokeWidth

/-- `validateDrawPathEvent` (`validation.util.ts:74-94`); identical to
`validateDrawLineEvent` except that it reads `path` (and its regex
`^#([0-9a-fA-F]{6})$` denotes the same language). -/
def validateDrawPathEvent (e : RawEvent) : Bool :=
  validateBaseEvent e &&
  (match e.type with | .str "DRAW_PATH" => true | _ => false) &&
  (match e.path with
   | .arr ps => decide (2 ≤ ps.length) && ps.all validPoint
   | _ => false) &&
  (e.color.truthy && e.color.isString) &&
  (match e.color with | .str s => isHexColor s | _ => false) &&
  strokeWidthCheck e.strokeWidth

/-- `validateEraseEvent` (`validation.util.ts:102-116`): the `region` must
be truthy and of `typeof 'object'` (arrays qualify; property reads on them
then yield `undefined`), with finite positive-dimension fields. -/
def validateEraseEvent (e : RawEvent) : Bool :=
  validateBaseEvent e &&
  (match e.type with | .str "ERASE" => true | _ => false) &&
  (e.region.truthy &&
   (match e.region with | .obj _ => true | .arr _ => true | .nullv => true | _ => false)) &&
  (match e.region.getField "x", e.region.getField "y",
        e.region.getField "width", e.region.getField "height" with
   | .num x, .num y, .num w, .num h =>
       x.isFin && y.isFin && w.isFin && h.isFin &&
       !(w.jle (.fin 0)) && !(h.jle (.fin 0))
   | _, _, _, _ => false)

/-- `validateClearCanvasEvent` (`validation.util.ts:123-128`). -/
def validateClearCanvasEvent (e : RawEvent) : Bool :=
  validateBaseEvent e &&
  (match e.type with | .str "CLEAR_CANVAS" => true | _ => false)

/-- `validateEvent` (`validation.util.ts:135-153`): truthy `type`, then a
switch on the type string; unknown types are rejected. -/
def validateEvent (e : RawEvent) : Bool :=
  e.type.truthy &&
  (match e.type with
   | .str "DRAW_LINE" => validateDrawLineEvent e
   | .str "DRAW_PATH" => validateDrawPathEvent e
   | .str "ERASE" => validateEraseEvent e
   | .str "CLEAR_CANVAS" => validateClearCanvasEvent e
   | .str "JOIN_ROOM" => validateBaseEvent e
   | .str "LEAVE_ROOM" => validateBaseEvent e
   | _ => false)

/-- `sanitizeEvent` (`validation.util.ts:161-164`): a stub that returns a
shallow copy, i.e. the identity on the event's fields. -/
def sanitizeEvent (e : RawEvent) : RawEvent := e

/-- The closed set of event type tags (`types/events.ts`). -/
inductive EventType where
  | DRAW_LINE
  | DRAW_PATH
  | ERASE
  | CLEAR_CANVAS
  | JOIN_ROOM
  | LEAVE_ROOM
deriving DecidableEq

/-- A typed `WhiteboardEvent` (`types/events.ts` `BaseEvent`): the header
fields the resolver, store and handlers read.  `timestamp` is a JS number
in milliseconds, modelled by a rational; `sequence` is optional and absent
until the store assigns it. -/
structure WhiteboardEvent where
  type : EventType
  userId : String
  roomId : String
  timestamp : ℚ
  sequence : Option ℕ := none
deriving DecidableEq

/-- Read a typed event out of a raw object whose shape has been validated:
the type tag, the string header fields and the finite numeric timestamp.
(The defaults are irrelevant post-validation.) -/
def toWhiteboardEvent (e : RawEvent) : WhiteboardEvent where
  type :=
    match e.type with
    | .str "DRAW_PATH" => .DRAW_PATH
    | .str "ERASE" => .ERASE
    | .str "CLEAR_CANVAS" => .CLEAR_CANVAS
    | .str "JOIN_ROOM" => .JOIN_ROOM
    | .str "LEAVE_ROOM" => .LEAVE_ROOM
    | _ => .DRAW_LINE
  userId := match e.userId with | .str s => s | _ => ""
  roomId := match e.roomId with | .str s => s | _ => ""
  timestamp := match e.timestamp with | .num (.fin q) => q | _ => 0
  sequence := match e.sequence with | .num (.fin q) => some q.num.toNat | _ => none

/-- `ConflictResolverService.isDrawingEvent`
(`conflict-resolver.service.ts:103-109`). -/
def isDrawingEvent (e : WhiteboardEvent) : Bool :=
  e.type = .DRAW_LINE || e.type = .DRAW_PATH || e.type = .ERASE

/-- `ConflictResolverService.isControlEvent`
(`conflict-resolver.service.ts:153-158`). -/
def isControlEvent (e : WhiteboardEvent) : Bool :=
  e.type = .JOIN_ROOM || e.type = .LEAVE_ROOM

/-- Insert into a most-recent-first list, keeping timestamps descending. -/
def insertByTsDesc (e : WhiteboardEvent) : List WhiteboardEvent → List WhiteboardEvent
  | [] => [e]
  | x :: xs =>
      if x.timestamp ≤ e.timestamp then e :: x :: xs else x :: insertByTsDesc e xs

/-- The JS `Array.prototype.sort` with comparator
`(a, b) => b.timestamp - a.timestamp` (most recent first), modelled as an
insertion sort: the events in timestamp-descending order. -/
def sortByTsDesc : List WhiteboardEvent → List WhiteboardEvent
  | [] => []
  | x :: xs => insertByTsDesc x (sortByTsDesc xs)

/-- The clear cooldown (`config/constants.ts` `CONFLICT_RESOLVER.CLEAR_COOLDOWN_MS`). -/
def CLEAR_COOLDOWN_MS : ℚ := 1000

/-- `ConflictResolverService.handleClearCanvasConflict`
(`conflict-resolver.service.ts:121-143`): filter the existing events to the
`CLEAR_CANVAS` ones, sort them most-recent-first, and reject the candidate
when `newEvent.timestamp - mostRecentClear.timestamp < CLEAR_COOLDOWN_MS`. -/
def handleClearCanvasConflict (existingEvents : List WhiteboardEvent)
    (newEvent : WhiteboardEvent) : Option WhiteboardEvent :=
  let recentClears := sortByTsDesc (existingEvents.filter (fun e => e.type = .CLEAR_CANVAS))
  match recentClears with
  | [] => some newEvent
  | mostRecentClear :: _ =>
      if newEvent.timestamp - mostRecentClear.timestamp < CLEAR_COOLDOWN_MS then
        none
      else
        some newEvent

/-- `ConflictResolverService.resolveConflict`
(`conflict-resolver.service.ts:73-93`). -/
def resolveConflict (existingEvents : List WhiteboardEvent)
    (newEvent : WhiteboardEvent) : Option WhiteboardEvent :=
  if isDrawingEvent newEvent then some newEvent
  else if newEvent.type = .CLEAR_CANVAS then
    handleClearCanvasConflict existingEvents newEvent
  else if isControlEvent newEvent then some newEvent
  else some newEvent

/-- Modelled from the spec: `SequenceManagerService` and
`EventStoreService` are not under `src/` (only their callers are).  Their
state, per spec §4.A and §4.D: a per-room sequence counter (initial 0) and
a per-room ordered append-only event log. -/
structure EventStoreState where
  events : String → List WhiteboardEvent
  seqs : String → ℕ

/-- The empty store: no events, all counters 0. -/
def initStore : EventStoreState where
  events := fun _ => []
  seqs := fun _ => 0

/-- Modelled from the spec: `EventStoreService.getEvents` — the full
ordered log of a room (spec §4.D `snapshot()`), empty when the room has no
events. -/
def getEvents (roomId : String) (st : EventStoreState) : List WhiteboardEvent :=
  st.events roomId

/-- Modelled from the spec: `EventStoreService.addEvent` — spec §4.E steps
3-5: draw the post-increment sequence number for the room, copy the event
with `sequence` set to it, and append it to the room's log.  Spec §9 states
that the 10,000-event cap (`MEMORY.MAX_EVENTS_PER_ROOM`) is declared but
not enforced by the source, so no capacity check appears here. -/
def addEvent (roomId : String) (e : WhiteboardEvent) (st : EventStoreState) :
    WhiteboardEvent × EventStoreState :=
  let seq := st.seqs roomId + 1
  let stored := { e with sequence := some seq }
  (stored,
   { events := Function.update st.events roomId (st.events roomId ++ [stored]),
     seqs := Function.update st.seqs roomId seq })

/-- Modelled from the spec: `EventStoreService.getEventsAfter` — spec §4.D
`since(seq)`: the log events with sequence strictly greater than the given
one, in log order. -/
def getEventsAfter (roomId : String) (afterSequence : ℕ) (st : EventStoreState) :
    List WhiteboardEvent :=
  (st.events roomId).filter (fun e => decide (afterSequence < e.sequence.getD 0))

/-- Modelled from the spec: `EventStoreService.clearRoomEvents` — spec §4.D
`clear()`: drop all of the room's events and reset the room's sequence
counter. -/
def clearRoomEvents (roomId : String) (st : EventStoreState) : EventStoreState where
  events := Function.update st.events roomId []
  seqs := Function.update st.seqs roomId 0

/-- The declared per-room cap (`config/constants.ts`
`MEMORY.MAX_EVENTS_PER_ROOM`). -/
def MAX_EVENTS_PER_ROOM : ℕ := 10000

/-- A JS `Set.add`: append only when absent (insertion order preserved). -/
def setAdd (r : String) (l : List String) : List String :=
  if r ∈ l then l else l ++ [r]

/-- `RoomStateService` state (`room-state.service.ts`): the event store
(which owns the sequence manager) and the `activeRooms` set. -/
structure RoomState where
  store : EventStoreState
  activeRooms : List String

/-- A freshly constructed `RoomStateService`. -/
def initRoomState : RoomState where
  store := initStore
  activeRooms := []

/-- `RoomStateService.processEvent` (`room-state.service.ts:73-88`): mark
the room active, resolve conflicts against the room's existing events, and
on acceptance store the event (assigning its sequence number); the result
is the stored event, or `none` on rejection. -/
def processEvent (roomId : String) (event : WhiteboardEvent) (st : RoomState) :
    Option WhiteboardEvent × RoomState :=
  let active := setAdd roomId st.activeRooms
  let existingEvents := getEvents roomId st.store
  match resolveConflict existingEvents event with
  | none => (none, { st with activeRooms := active })
  | some resolvedEvent =>
      let (processedEvent, store') := addEvent roomId resolvedEvent st.store
      (some processedEvent, { store := store', activeRooms := active })

/-- `RoomStateService.getState` (`room-state.service.ts:96-101`): the full
log, but `[]` when the room is not in `activeRooms`. -/
def getState (roomId : String) (st : RoomState) : List WhiteboardEvent :=
  if roomId ∈ st.activeRooms then getEvents roomId st.store else []

/-- `RoomStateService.getEventsAfter` (`room-state.service.ts:112-114`). -/
def getEventsAfterRS (roomId : String) (afterSequence : ℕ) (st : RoomState) :
    List WhiteboardEvent :=
  getEventsAfter roomId afterSequence st.store

/-- `RoomStateService.clearRoom` (`room-state.service.ts:120-123`). -/
def clearRoom (roomId : String) (st : RoomState) : RoomState where
  store := clearRoomEvents roomId st.store
  activeRooms := st.activeRooms.erase roomId

/-- `RoomStateService.getActiveRooms` (`room-state.service.ts:130-132`). -/
def getActiveRooms (st : RoomState) : List String := st.activeRooms

/-- `RoomStateService.roomExists` (`room-state.service.ts:139-141`). -/
def roomExists (roomId : String) (st : RoomState) : Bool :=
  roomId ∈ st.activeRooms

/-- `WebSocketRoomsService` state (`websocket-rooms.service.ts:21-25`):
sockets are identified by numbers; `rooms` maps a room id to its member
set when the key is present, and `clientRooms` maps a socket to its current
room. -/
structure RoomsState where
  rooms : String → Option (Finset ℕ)
  clientRooms : ℕ → Option String

/-- A freshly constructed `WebSocketRoomsService`: both maps empty. -/
def initRooms : RoomsState where
  rooms := fun _ => none
  clientRooms := fun _ => none

/-- `WebSocketRoomsService.leaveRoom` (`websocket-rooms.service.ts:62-74`):
delete the socket from the room's set when that room key exists, dropping
the key when the set becomes empty; then delete the socket's
`clientRooms` entry unconditionally. -/
def leaveRoom (roomId : String) (socket : ℕ) (st : RoomsState) : RoomsState :=
  let rooms' :=
    match st.rooms roomId with
    | some roomConnections =>
        let remaining := roomConnections.erase socket
        if remaining.card = 0 then Function.update st.rooms roomId none
        else Function.update st.rooms roomId (some remaining)
    | none => st.rooms
  { rooms := rooms', clientRooms := Function.update st.clientRooms socket none }

/-- `WebSocketRoomsService.joinRoom` (`websocket-rooms.service.ts:39-54`):
leave the previous room if any, create the room's set if absent, add the
socket to it, and point `clientRooms` at the new room. -/
def joinRoom (roomId : String) (socket : ℕ) (st : RoomsState) : RoomsState :=
  let st₁ :=
    match st.clientRooms socket with
    | some previousRoom => leaveRoom previousRoom socket st
    | none => st
  let roomConnections := (st₁.rooms roomId).getD ∅
  { rooms := Function.update st₁.rooms roomId (some (insert socket roomConnections)),
    clientRooms := Function.update st₁.clientRooms socket (some roomId) }

/-- `WebSocketRoomsService.getRoomConnections`
(`websocket-rooms.service.ts:82-84`): the member set, or an empty set when
the room key is absent. -/
def getRoomConnections (roomId : String) (st : RoomsState) : Finset ℕ :=
  (st.rooms roomId).getD ∅

/-- `WebSocketRoomsService.removeClient` (`websocket-rooms.service.ts:128-133`). -/
def removeClient (socket : ℕ) (st : RoomsState) : RoomsState :=
  match st.clientRooms socket with
  | some roomId => leaveRoom roomId socket st
  | none => st

/-- `WebSocketRoomsService.getClientRoom` (`websocket-rooms.service.ts:146-148`). -/
def getClientRoom (socket : ℕ) (st : RoomsState) : Option String :=
  st.clientRooms socket

/-- The membership-table invariant (spec §3: session S ∈ room R's set ⇔
S's current-room = R). -/
def MembershipInv (st : RoomsState) : Prop :=
  ∀ roomId socket, socket ∈ getRoomConnections roomId st ↔ st.clientRooms socket = some roomId

/-- A server-to-client frame, as far as the whiteboard-event path emits
them (`handlers/websocket.handler.ts`). -/
inductive ServerMsg where
  | errMsg (error : String)
  | eventMsg (payload : WhiteboardEvent)
deriving DecidableEq

/-- The full state a `WebSocketHandler` closes over: the shared
`RoomStateService`, the `WebSocketRoomsService`, and which sockets are
currently open (`readyState === OPEN`). -/
structure WsServerState where
  roomState : RoomState
  conns : RoomsState
  isOpen : ℕ → Bool

/-- `WebSocketHandler.sendMessage` (`websocket.handler.ts:276-280`): a send
to a non-open socket is a silent no-op. -/
def sendMessage (socket : ℕ) (m : ServerMsg) (st : WsServerState) : List (ℕ × ServerMsg) :=
  if st.isOpen socket then [(socket, m)] else []

/-- `WebSocketRoomsService.broadcastToRoom`
(`websocket-rooms.service.ts:98-115`) with no excluded socket: one send per
open member of the room. -/
def broadcastToRoom (roomId : String) (m : ServerMsg) (st : WsServerState) :
    List (ℕ × ServerMsg) :=
  (((getRoomConnections roomId st.conns).filter (fun s => st.isOpen s)).sort (· ≤ ·)).map
    (fun s => (s, m))

/-- The server-side normalization in `handleWhiteboardEvent`
(`websocket.handler.ts:152-159`): spread the inbound message and overwrite
`roomId` with the session's current room and `timestamp` with the server
clock, before validation. -/
def normalizeEvent (message : RawEvent) (roomId : String) (now : ℚ) : RawEvent :=
  { message with roomId := .str roomId, timestamp := .num (.fin now) }

/-- `WebSocketHandler.handleWhiteboardEvent` (`websocket.handler.ts:142-193`):
look up the session's room (`ERROR "Not in a room"` if none), normalize,
validate (`ERROR "Invalid event"` on failure), submit through
`RoomStateService.processEvent` (`ERROR "Event rejected due to conflict
resolution"` on conflict), and on acceptance broadcast the stored event to
the room.  Returns the new server state and the frames sent. -/
def handleWhiteboardEvent (socket : ℕ) (message : RawEvent) (now : ℚ)
    (st : WsServerState) : WsServerState × List (ℕ × ServerMsg) :=
  match getClientRoom socket st.conns with
  | none => (st, sendMessage socket (.errMsg "Not in a room") st)
  | some roomId =>
      let candidateEvent := normalizeEvent message roomId now
      if !validateEvent candidateEvent then
        (st, sendMessage socket (.errMsg "Invalid event") st)
      else
        let event := toWhiteboardEvent (sanitizeEvent candidateEvent)
        match processEvent roomId event st.roomState with
        | (none, rs') =>
            ({ st with roomState := rs' },
             sendMessage socket (.errMsg "Event rejected due to conflict resolution") st)
        | (some processedEvent, rs') =>
            ({ st with roomState := rs' },
             broadcastToRoom roomId (.eventMsg processedEvent) st)

/-- `EventsHandler.handleEventSubmission` (`events.handler.ts:402-428`), the
HTTP `POST /events` pipeline: validate the client-supplied event object
as received (no normalization of `roomId` or `timestamp` occurs on this
path), then submit it to `processEvent` under the separately supplied
`roomId` route parameter.  `none` models the 400 error response. -/
def handleEventSubmission (roomId : String) (event : RawEvent) (st : RoomState) :
    Option WhiteboardEvent × RoomState :=
  if !validateEvent event then (none, st)
  else processEvent roomId (toWhiteboardEvent (sanitizeEvent event)) st

/-- The states a `RoomStateService` instance can reach: the fresh instance,
followed by any interleaving of `processEvent` and `clearRoom` calls (the
only mutating operations). -/
inductive ReachableRS : RoomState → Prop where
  | init : ReachableRS initRoomState
  | proc (roomId : String) (event : WhiteboardEvent) (st : RoomState) :
      ReachableRS st → ReachableRS (processEvent roomId event st).2
  | clear (roomId : String) (st : RoomState) :
      ReachableRS st → ReachableRS (clearRoom roomId st)

/-- Timestamp-descending pairwise order (what the most-recent-first sort
establishes). -/
def SortedDesc (l : List WhiteboardEvent) : Prop :=
  l.Pairwise (fun a b => b.timestamp ≤ a.timestamp)

/-- The log well-formedness asserted by the spec (§3 Event Log invariants
1-2): the i-th stored event (0-based) carries sequence number i+1, so
sequence numbers are 1,2,3,… in log order. -/
def SeqOk (l : List WhiteboardEvent) : Prop :=
  l.map (fun e => e.sequence) = (List.range l.length).map (fun i => some (i + 1))

/-- Internal invariant of `RoomStateService`: each room's sequence counter
equals its log length, and each room's log is sequence-well-formed. -/
def SeqInv (st : RoomState) : Prop :=
  ∀ roomId, st.store.seqs roomId = (st.store.events roomId).length ∧
    SeqOk (st.store.events roomId)

/-- Internal invariant of `RoomStateService`: rooms outside `activeRooms`
have empty logs (and `activeRooms` never holds duplicates, mirroring the
JS `Set`). -/
def ActiveInv (st : RoomState) : Prop :=
  st.activeRooms.Nodup ∧ ∀ roomId, roomId ∉ st.activeRooms → st.store.events roomId = []

/-- `|a - b| < limit` as a Boolean: the timestamps differ by less than
`limit` in either direction (the natural reading of the claim's
"differs by less than 1000 ms"). -/
def tsDiffLt (a b limit : ℚ) : Bool :=
  decide (a - b < limit) && decide (b - a < limit)

/-- The acceptance predicate of claim C2 taken at its word: accept iff the
existing list contains no `CLEAR_CANVAS` whose timestamp differs from the
candidate's by less than the cooldown (absolute difference). -/
def acceptedPerClaimC2 (existingEvents : List WhiteboardEvent)
    (newEvent : WhiteboardEvent) : Bool :=
  existingEvents.all
    (fun e => !(decide (e.type = .CLEAR_CANVAS) &&
                tsDiffLt newEvent.timestamp e.timestamp CLEAR_COOLDOWN_MS))

/-- The `strokeWidth` acceptance predicate of claim C7 taken at its word:
a finite number in (0, 100]. -/
def strokeWidthFiniteInRange (v : JsVal) : Bool :=
  match v with
  | .num (.fin q) => decide (0 < q) && decide (q ≤ 100)
  | _ => false

/-- A point value `[a, b]` of finite coordinates. -/
def jsPoint (a b : ℚ) : JsVal := .arr [.num (.fin a), .num (.fin b)]

/-- A `DRAW_LINE` object that is valid in every field except that its
`strokeWidth` is `NaN`. -/
def dlNaN : RawEvent where
  type := .str "DRAW_LINE"
  userId := .str "u1"
  roomId := .str "r1"
  timestamp := .num (.fin 1234)
  points := .arr [jsPoint 0 0, jsPoint 1 1]
  color := .str "#FF0000"
  strokeWidth := .num .nan

/-- A fully valid `DRAW_LINE` object except that its timestamp is the epoch
(the finite number 0). -/
def dlTs0 : RawEvent :=
  { dlNaN with timestamp := .num (.fin 0), strokeWidth := .num (.fin 2) }

/-- A client `DRAW_LINE` frame whose `color` is the invalid string `"red"`
(spec scenario S5). -/
def dlRed : RawEvent where
  type := .str "DRAW_LINE"
  userId := .str "u1"
  points := .arr [jsPoint 0 0, jsPoint 1 1]
  color := .str "red"
  strokeWidth := .num (.fin 2)

/-- A typed `CLEAR_CANVAS` event at a given timestamp. -/
def clearAt (t : ℚ) : WhiteboardEvent where
  type := .CLEAR_CANVAS
  userId := "u"
  roomId := "r"
  timestamp := t

/-- A typed `DRAW_LINE` event at a given timestamp. -/
def drawAt (t : ℚ) : WhiteboardEvent where
  type := .DRAW_LINE
  userId := "u"
  roomId := "room-1"
  timestamp := t

/-- A client event object for `POST /events` whose own `roomId` field says
`"B"` and whose `timestamp` says 5 — to be submitted under the route
parameter `roomId = "A"`. -/
def ccB : RawEvent where
  type := .str "CLEAR_CANVAS"
  userId := .str "u"
  roomId := .str "B"
  timestamp := .num (.fin 5)

/-- A client `CLEAR_CANVAS` frame as sent over the wire (no `roomId` or
`timestamp`; the server fills both in). -/
def ccWire : RawEvent where
  type := .str "CLEAR_CANVAS"
  userId := .str "u"

/-- A WebSocket server state in which socket 0 has joined room `"r1"`, all
sockets are open, and no events are stored. -/
def wsSt1 : WsServerState where
  roomState := initRoomState
  conns := joinRoom "r1" 0 initRooms
  isOpen := fun _ => true

/-- The event used to fill a room for the capacity experiment. -/
def fillEvent : WhiteboardEvent := drawAt 1

/-- The `RoomStateService` state after `n` accepted `DRAW_LINE` submissions
to room `"room-1"`. -/
def fillRoom : ℕ → RoomState
  | 0 => initRoomState
  | n + 1 => (processEvent "room-1" fillEvent (fillRoom n)).2

/-- The event the WebSocket path is expected to store for socket 0 of
`wsSt1` when the server clock reads 99. -/
def storedClear99 : WhiteboardEvent where
  type := .CLEAR_CANVAS
  userId := "u"
  roomId := "r1"
  timestamp := 99
  sequence := some 1

/-- The event the HTTP path is expected to store for `ccB` submitted under
route parameter `"A"`. -/
def storedClearB : WhiteboardEvent where
  type := .CLEAR_CANVAS
  userId := "u"
  roomId := "B"
  timestamp := 5
  sequence := some 1

/-! ## Theorems -/

lemma validateBaseEvent_ts_zero (e : RawEvent)
    (h : e.timestamp = .num (.fin 0)) : validateBaseEvent e = false := by
  unfold validateBaseEvent
  rw [h]
  simp [JsVal.truthy, JsNum.truthy]

/-- C9.  The validator rejects every event whose timestamp is exactly 0:
`validateBaseEvent`'s presence check uses JS falsiness on `timestamp`, so an
event timestamped at the epoch is reported invalid for every event type. -/
theorem validator_rejects_timestamp_zero (e : RawEvent)
    (h : e.timestamp = .num (.fin 0)) : validateEvent e = false := by
  have hbase := validateBaseEvent_ts_zero e h
  unfold validateEvent
  split <;>
    simp [validateDrawLineEvent, validateDrawPathEvent, validateEraseEvent,
      validateClearCanvasEvent, hbase]

/-- Witness for C9: a `DRAW_LINE` object valid in every other field, with
timestamp 0, is rejected. -/
theorem validator_rejects_timestamp_zero_witness :
    dlTs0.timestamp = .num (.fin 0) ∧ validateEvent dlTs0 = false :=
  ⟨rfl, validator_rejects_timestamp_zero dlTs0 rfl⟩

/-- Counterexample to C7 as stated: `dlNaN` has `strokeWidth = NaN`, which
is not a finite number in (0, 100], yet the validator accepts it — the
source checks `strokeWidth <= 0 || strokeWidth > 100`, both false for
`NaN`, and never checks finiteness. -/
theorem strokeWidth_nan_accepted :
    validateEvent dlNaN = true ∧ strokeWidthFiniteInRange dlNaN.strokeWidth = false := by
  constructor <;> decide

/-- C7 (amended).  For `DRAW_LINE` / `DRAW_PATH` objects the validator
accepts only strokeWidths that are numbers `n` with `¬(n <= 0)` and
`¬(n > 100)` under JS comparison semantics: every finite strokeWidth in
(0, 100] and also `NaN`; both infinities and all finite values outside
(0, 100] are rejected. -/
theorem strokeWidth_accepted_iff (e : RawEvent)
    (h : validateDrawLineEvent e = true ∨ validateDrawPathEvent e = true) :
    e.strokeWidth = .num .nan ∨ strokeWidthFiniteInRange e.strokeWidth = true := by
  have hsw : strokeWidthCheck e.strokeWidth = true := by
    rcases h with h | h
    · unfold validateDrawLineEvent at h
      simp only [Bool.and_eq_true] at h
      exact h.2
    · unfold validateDrawPathEvent at h
      simp only [Bool.and_eq_true] at h
      exact h.2
  unfold strokeWidthCheck at hsw
  split at hsw
  · next n heq =>
      rcases n with q | _ | _ | _
      · right
        simp only [JsNum.jle, JsNum.jgt, JsNum.jlt, Bool.and_eq_true, Bool.not_eq_true',
          decide_eq_false_iff_not, not_le, not_lt] at hsw
        unfold strokeWidthFiniteInRange
        rw [heq]
        simp only [Bool.and_eq_true, decide_eq_true_eq]
        exact ⟨hsw.1, hsw.2⟩
      · left; exact heq
      · exact absurd hsw (by simp [JsNum.jle, JsNum.jgt, JsNum.jlt])
      · exact absurd hsw (by simp [JsNum.jle, JsNum.jgt, JsNum.jlt])
  · exact absurd hsw (by simp)

/-- Witness for the amended C7: a valid `DRAW_LINE` with strokeWidth 2. -/
theorem strokeWidth_accepted_iff_witness :
    { dlNaN with strokeWidth := .num (.fin 2) }.strokeWidth = .num .nan ∨
      strokeWidthFiniteInRange { dlNaN with strokeWidth := .num (.fin 2) }.strokeWidth = true :=
  strokeWidth_accepted_iff { dlNaN with strokeWidth := .num (.fin 2) } (Or.inl (by decide))

lemma mem_insertByTsDesc {e y : WhiteboardEvent} {l : List WhiteboardEvent} :
    y ∈ insertByTsDesc e l ↔ y = e ∨ y ∈ l := by
  induction l with
  | nil => simp [insertByTsDesc]
  | cons x xs ih =>
      unfold insertByTsDesc
      by_cases h : x.timestamp ≤ e.timestamp <;> simp [h, ih] <;> tauto

lemma sortedDesc_insertByTsDesc {e : WhiteboardEvent} {l : List WhiteboardEvent}
    (h : SortedDesc l) : SortedDesc (insertByTsDesc e l) := by
  induction l with
  | nil => simp [insertByTsDesc, SortedDesc]
  | cons x xs ih =>
      unfold SortedDesc at h ⊢
      rw [List.pairwise_cons] at h
      unfold insertByTsDesc
      by_cases hle : x.timestamp ≤ e.timestamp
      · simp only [hle, if_true]
        rw [List.pairwise_cons]
        refine ⟨?_, by rw [List.pairwise_cons]; exact h⟩
        intro y hy
        rcases List.mem_cons.mp hy with rfl | hy
        · exact hle
        · exact le_trans (h.1 y hy) hle
      · simp only [hle, if_false]
        rw [List.pairwise_cons]
        refine ⟨?_, ih h.2⟩
        intro y hy
        rcases mem_insertByTsDesc.mp hy with rfl | hy
        · exact le_of_not_le hle
        · exact h.1 y hy

lemma mem_sortByTsDesc {y : WhiteboardEvent} {l : List WhiteboardEvent} :
    y ∈ sortByTsDesc l ↔ y ∈ l := by
  induction l with
  | nil => simp [sortByTsDesc]
  | cons x xs ih => simp [sortByTsDesc, mem_insertByTsDesc, ih]

lemma sortedDesc_sortByTsDesc (l : List WhiteboardEvent) :
    SortedDesc (sortByTsDesc l) := by
  induction l with
  | nil => simp [sortByTsDesc, SortedDesc]
  | cons x xs ih => exact sortedDesc_insertByTsDesc ih

lemma sortByTsDesc_eq_nil {l : List WhiteboardEvent} :
    sortByTsDesc l = [] ↔ l = [] := by
  constructor
  · intro h
    rw [List.eq_nil_iff_forall_not_mem]
    intro a ha
    have : a ∈ sortByTsDesc l := mem_sortByTsDesc.mpr ha
    rw [h] at this
    exact List.not_mem_nil a this
  · intro h; rw [h]; rfl

lemma sortByTsDesc_head_max {l t : List WhiteboardEvent} {m : WhiteboardEvent}
    (h : sortByTsDesc l = m :: t) :
    m ∈ l ∧ ∀ x ∈ l, x.timestamp ≤ m.timestamp := by
  have hmem : m ∈ l := mem_sortByTsDesc.mp (h ▸ List.mem_cons_self m t)
  refine ⟨hmem, fun x hx => ?_⟩
  have hx' : x ∈ sortByTsDesc l := mem_sortByTsDesc.mpr hx
  rw [h] at hx'
  rcases List.mem_cons.mp hx' with rfl | hx'
  · exact le_refl _
  · have hs := sortedDesc_sortByTsDesc l
    rw [h] at hs
    unfold SortedDesc at hs
    rw [List.pairwise_cons] at hs
    exact hs.1 x hx'

/-- The acceptance condition actually implemented by
`handleClearCanvasConflict`: the candidate's timestamp is at least the
cooldown later than every existing `CLEAR_CANVAS` (a signed comparison
against the most-recent clear). -/
lemma handleClearCanvasConflict_accept_iff (existingEvents : List WhiteboardEvent)
    (newEvent : WhiteboardEvent) :
    handleClearCanvasConflict existingEvents newEvent = some newEvent ↔
      ∀ e ∈ existingEvents, e.type = .CLEAR_CANVAS →
        CLEAR_COOLDOWN_MS ≤ newEvent.timestamp - e.timestamp := by
  unfold handleClearCanvasConflict
  rcases hsort : sortByTsDesc (existingEvents.filter (fun e => e.type = .CLEAR_CANVAS))
    with _ | ⟨m, t⟩
  · simp only [true_iff]
    have hfil : existingEvents.filter (fun e => decide (e.type = .CLEAR_CANVAS)) = [] :=
      sortByTsDesc_eq_nil.mp hsort
    intro e he htype
    exfalso
    have : e ∈ existingEvents.filter (fun e => decide (e.type = .CLEAR_CANVAS)) :=
      List.mem_filter.mpr ⟨he, by simp [htype]⟩
    rw [hfil] at this
    exact List.not_mem_nil e this
  · obtain ⟨hmmem, hmax⟩ := sortByTsDesc_head_max hsort
    have hmtype : m.type = .CLEAR_CANVAS := by
      have := (List.mem_filter.mp hmmem).2
      simpa using this
    have hmex : m ∈ existingEvents := (List.mem_filter.mp hmmem).1
    by_cases hcd : newEvent.timestamp - m.timestamp < CLEAR_COOLDOWN_MS
    · simp only [hcd, if_true]
      constructor
      · intro h; exact absurd h (by simp)
      · intro h
        exact absurd (h m hmex hmtype) (by linarith)
    · simp only [hcd, if_false, true_iff]
      intro e he htype
      have hee : e ∈ existingEvents.filter (fun e => decide (e.type = .CLEAR_CANVAS)) :=
        List.mem_filter.mpr ⟨he, by simp [htype]⟩
      have hts : e.timestamp ≤ m.timestamp := hmax e hee
      push_neg at hcd
      linarith

/-- Counterexample to C2 as stated: with one existing `CLEAR_CANVAS` at
timestamp 2000 and a candidate `CLEAR_CANVAS` at timestamp 0, the absolute
timestamp difference is 2000 ms ≥ the cooldown, so the claim says the
candidate is accepted — but the source computes the signed difference
`newEvent.timestamp - mostRecentClear.timestamp = -2000 < 1000` and
rejects it. -/
theorem clear_cooldown_not_absolute :
    resolveConflict [clearAt 2000] (clearAt 0) = none
    ∧ acceptedPerClaimC2 [clearAt 2000] (clearAt 0) = true := by
  constructor
  · unfold resolveConflict
    have h1 : isDrawingEvent (clearAt 0) = false := by decide
    have h2 : (clearAt 0).type = EventType.CLEAR_CANVAS := rfl
    rw [h1, h2]
    simp only [Bool.false_eq_true, if_false, if_true]
    unfold handleClearCanvasConflict
    have hsort : sortByTsDesc ([clearAt 2000].filter (fun e => e.type = .CLEAR_CANVAS))
        = [clearAt 2000] := by decide
    rw [hsort]
    simp only [clearAt, CLEAR_COOLDOWN_MS]
    norm_num
  · unfold acceptedPerClaimC2 tsDiffLt
    simp only [List.all_cons, List.all_nil, Bool.and_true, clearAt, CLEAR_COOLDOWN_MS]
    norm_num

/-- C2 (amended).  For every list of existing events and every
`CLEAR_CANVAS` candidate, the resolver accepts the candidate (returning it
unchanged) iff the candidate's timestamp is at least 1000 ms (the clear
cooldown) later than the timestamp of every `CLEAR_CANVAS` in the list —
equivalently, than the most-recent one's; the comparison is signed, and a
signed difference of exactly 1000 ms is accepted because the cooldown
predicate is strict `<`.  Otherwise the resolver returns `none`. -/
theorem clear_canvas_cooldown (existingEvents : List WhiteboardEvent)
    (newEvent : WhiteboardEvent) (htype : newEvent.type = .CLEAR_CANVAS) :
    (resolveConflict existingEvents newEvent = some newEvent ↔
      ∀ e ∈ existingEvents, e.type = .CLEAR_CANVAS →
        CLEAR_COOLDOWN_MS ≤ newEvent.timestamp - e.timestamp)
    ∧ (resolveConflict existingEvents newEvent = some newEvent ∨
       resolveConflict existingEvents newEvent = none) := by
  have hdraw : isDrawingEvent newEvent = false := by
    simp [isDrawingEvent, htype]
  have hres : resolveConflict existingEvents newEvent
      = handleClearCanvasConflict existingEvents newEvent := by
    unfold resolveConflict
    simp [hdraw, htype]
  constructor
  · rw [hres]
    exact handleClearCanvasConflict_accept_iff existingEvents newEvent
  · rw [hres]
    unfold handleClearCanvasConflict
    rcases sortByTsDesc (existingEvents.filter (fun e => e.type = .CLEAR_CANVAS))
      with _ | ⟨m, t⟩
    · left; rfl
    · dsimp only
      by_cases hcd : newEvent.timestamp - m.timestamp < CLEAR_COOLDOWN_MS
      · right; simp [hcd]
      · left; simp [hcd]

/-- Witness for the amended C2: a clear exactly 1000 ms after the previous
clear is accepted; the hypotheses are discharged at the concrete input. -/
theorem clear_canvas_cooldown_witness :
    resolveConflict [clearAt 0] (clearAt 1000) = some (clearAt 1000) :=
  (clear_canvas_cooldown [clearAt 0] (clearAt 1000) rfl).1.mpr
    (by simp [clearAt, CLEAR_COOLDOWN_MS])

lemma membershipInv_initRooms : MembershipInv initRooms := by
  intro roomId socket
  simp [initRooms, getRoomConnections]

lemma leaveRoom_clientRooms (roomId : String) (socket : ℕ) (st : RoomsState) :
    (leaveRoom roomId socket st).clientRooms socket = none := by
  unfold leaveRoom
  simp [Function.update_same]

lemma membershipInv_leaveRoom {st : RoomsState} {roomId : String} {socket : ℕ}
    (hinv : MembershipInv st) (hcur : st.clientRooms socket = some roomId) :
    MembershipInv (leaveRoom roomId socket st) := by
  have hmem : socket ∈ getRoomConnections roomId st := (hinv roomId socket).mpr hcur
  rcases hrooms : st.rooms roomId with _ | conns
  · exfalso
    unfold getRoomConnections at hmem
    rw [hrooms] at hmem
    simp at hmem
  have hiff : ∀ s', s' ∈ conns ↔ st.clientRooms s' = some roomId := by
    intro s'
    have h := hinv roomId s'
    unfold getRoomConnections at h
    rw [hrooms] at h
    simpa using h
  intro r s
  unfold leaveRoom getRoomConnections
  rw [hrooms]
  dsimp only
  by_cases hr : r = roomId
  · subst hr
    by_cases hcard : (conns.erase socket).card = 0
    · rw [if_pos hcard, Function.update_same]
      simp only [Option.getD_none]
      constructor
      · intro hs; exact absurd hs (Finset.not_mem_empty s)
      · intro hs
        by_cases hss : s = socket
        · subst hss; rw [Function.update_same] at hs; exact absurd hs (by simp)
        · rw [Function.update_noteq hss] at hs
          have h1 : s ∈ conns := (hiff s).mpr hs
          have h2 : s ∈ conns.erase socket := Finset.mem_erase.mpr ⟨hss, h1⟩
          rw [Finset.card_eq_zero.mp hcard] at h2
          exact absurd h2 (Finset.not_mem_empty s)
    · rw [if_neg hcard, Function.update_same]
      simp only [Option.getD_some]
      by_cases hss : s = socket
      · subst hss
        rw [Function.update_same]
        simp [Finset.mem_erase]
      · rw [Function.update_noteq hss, Finset.mem_erase]
        constructor
        · intro hs; exact (hiff s).mp hs.2
        · intro hs; exact ⟨hss, (hiff s).mpr hs⟩
  · have hrne : (if (conns.erase socket).card = 0 then
        Function.update st.rooms roomId none
        else Function.update st.rooms roomId (some (conns.erase socket))) r = st.rooms r := by
      by_cases hcard : (conns.erase socket).card = 0
      · rw [if_pos hcard, Function.update_noteq hr]
      · rw [if_neg hcard, Function.update_noteq hr]
    rw [hrne]
    by_cases hss : s = socket
    · subst hss
      rw [Function.update_same]
      constructor
      · intro hs
        have h := (hinv r s).mp hs
        rw [hcur] at h
        exact absurd (Option.some.inj h).symm hr
      · intro hs; exact absurd hs (by simp)
    · rw [Function.update_noteq hss]
      exact hinv r s

lemma membershipInv_joinCore {st : RoomsState} (roomId : String) (socket : ℕ)
    (hinv : MembershipInv st) (hnone : st.clientRooms socket = none) :
    MembershipInv
      { rooms := Function.update st.rooms roomId
          (some (insert socket ((st.rooms roomId).getD ∅))),
        clientRooms := Function.update st.clientRooms socket (some roomId) } := by
  intro r s
  unfold getRoomConnections
  dsimp only
  by_cases hr : r = roomId
  · subst hr
    rw [Function.update_same]
    simp only [Option.getD_some, Finset.mem_insert]
    by_cases hss : s = socket
    · subst hss
      rw [Function.update_same]
      simp
    · rw [Function.update_noteq hss]
      constructor
      · intro hs
        rcases hs with rfl | hs
        · exact absurd rfl hss
        · exact (hinv r s).mp hs
      · intro hs
        exact Or.inr ((hinv r s).mpr hs)
  · rw [Function.update_noteq hr]
    by_cases hss : s = socket
    · subst hss
      rw [Function.update_same]
      constructor
      · intro hs
        have h := (hinv r s).mp hs
        rw [hnone] at h
        exact absurd h (by simp)
      · intro hs
        exact absurd (Option.some.inj hs).symm hr
    · rw [Function.update_noteq hss]
      exact hinv r s

lemma membershipInv_joinRoom {st : RoomsState} (roomId : String) (socket : ℕ)
    (hinv : MembershipInv st) : MembershipInv (joinRoom roomId socket st) := by
  unfold joinRoom
  rcases hcur : st.clientRooms socket with _ | prev
  · dsimp only
    exact membershipInv_joinCore roomId socket hinv hcur
  · dsimp only
    exact membershipInv_joinCore roomId socket
      (membershipInv_leaveRoom hinv hcur) (leaveRoom_clientRooms prev socket st)

lemma membershipInv_removeClient {st : RoomsState} (socket : ℕ)
    (hinv : MembershipInv st) : MembershipInv (removeClient socket st) := by
  unfold removeClient
  rcases hcur : st.clientRooms socket with _ | r
  · exact hinv
  · exact membershipInv_leaveRoom hinv hcur

/-- Counterexample to C3 as stated: starting from a state where socket 0 is
in room `"Y"` (where the invariant holds), calling
`leaveRoom "X" 0` — a `leave` with an arbitrary `roomId` argument that is
not the socket's current room — breaks the invariant: the socket's
`clientRooms` entry is deleted unconditionally while the socket remains in
room `"Y"`'s member set. -/
theorem leaveRoom_arbitrary_breaks_invariant :
    MembershipInv (joinRoom "Y" 0 initRooms)
    ∧ ¬ MembershipInv (leaveRoom "X" 0 (joinRoom "Y" 0 initRooms)) := by
  constructor
  · exact membershipInv_joinRoom "Y" 0 membershipInv_initRooms
  · intro h
    have hmem : (0 : ℕ) ∈ getRoomConnections "Y" (leaveRoom "X" 0 (joinRoom "Y" 0 initRooms)) := by
      decide
    have := (h "Y" 0).mp hmem
    revert this
    decide

/-- C3 (amended).  The membership-table invariant — session S ∈ room R's
set ⇔ S's current room is R — is preserved by `joinRoom` for arbitrary
arguments, by `removeClient` (disconnect) for arbitrary arguments, and by
`leaveRoom roomId socket` when `roomId` is the socket's current room (the
only way the handler invokes it); a `leaveRoom` whose `roomId` is not the
socket's current room can break it. -/
theorem membership_invariant_preserved :
    (∀ st roomId socket, MembershipInv st → MembershipInv (joinRoom roomId socket st))
    ∧ (∀ st socket, MembershipInv st → MembershipInv (removeClient socket st))
    ∧ (∀ st roomId socket, MembershipInv st → st.clientRooms socket = some roomId →
        MembershipInv (leaveRoom roomId socket st)) :=
  ⟨fun _ roomId socket hinv => membershipInv_joinRoom roomId socket hinv,
   fun _ socket hinv => membershipInv_removeClient socket hinv,
   fun _ _ _ hinv hcur => membershipInv_leaveRoom hinv hcur⟩

/-- Witness for the amended C3, applied at the empty table: joining,
disconnecting, and the matching leave all preserve the invariant at
concrete inputs. -/
theorem membership_invariant_preserved_witness :
    MembershipInv (joinRoom "r1" 0 initRooms)
    ∧ MembershipInv (removeClient 0 initRooms)
    ∧ MembershipInv (leaveRoom "r1" 0 (joinRoom "r1" 0 initRooms)) :=
  ⟨membership_invariant_preserved.1 initRooms "r1" 0 membershipInv_initRooms,
   membership_invariant_preserved.2.1 initRooms 0 membershipInv_initRooms,
   membership_invariant_preserved.2.2 (joinRoom "r1" 0 initRooms) "r1" 0
     (membership_invariant_preserved.1 initRooms "r1" 0 membershipInv_initRooms)
     (by decide)⟩

lemma seqOk_nil : SeqOk [] := rfl

lemma seqOk_append {l : List WhiteboardEvent} {e : WhiteboardEvent}
    (h : SeqOk l) (he : e.sequence = some (l.length + 1)) : SeqOk (l ++ [e]) := by
  unfold SeqOk at h ⊢
  rw [List.map_append, h, List.length_append]
  simp only [List.length_singleton]
  rw [List.range_succ, List.map_append]
  simp [he]

lemma seqOk_get {l : List WhiteboardEvent} (h : SeqOk l) (i : ℕ) (hi : i < l.length) :
    (l.get ⟨i, hi⟩).sequence = some (i + 1) := by
  have h0 := congrArg (fun t => t.get? i) h
  simp only [List.get?_map] at h0
  rw [List.get?_eq_get hi] at h0
  rw [List.get?_eq_get (by simpa using hi)] at h0
  simp only [Option.map_some, List.get_range] at h0
  exact Option.some.inj h0

lemma seqInv_init : SeqInv initRoomState := fun _ => ⟨rfl, rfl⟩

lemma seqInv_processEvent (roomId : String) (e : WhiteboardEvent) {st : RoomState}
    (h : SeqInv st) : SeqInv (processEvent roomId e st).2 := by
  unfold processEvent
  dsimp only
  rcases hres : resolveConflict (getEvents roomId st.store) e with _ | resolved <;> dsimp only
  · exact h
  · intro r
    unfold addEvent
    dsimp only
    by_cases hr : r = roomId
    · subst hr
      rw [Function.update_same, Function.update_same]
      obtain ⟨hlen, hok⟩ := h r
      constructor
      · rw [List.length_append, hlen]
        rfl
      · exact seqOk_append hok (by rw [hlen])
    · rw [Function.update_noteq hr, Function.update_noteq hr]
      exact h r

lemma seqInv_clearRoom (roomId : String) {st : RoomState} (h : SeqInv st) :
    SeqInv (clearRoom roomId st) := by
  intro r
  unfold clearRoom clearRoomEvents
  dsimp only
  by_cases hr : r = roomId
  · subst hr
    rw [Function.update_same, Function.update_same]
    exact ⟨rfl, rfl⟩
  · rw [Function.update_noteq hr, Function.update_noteq hr]
    exact h r

lemma seqInv_reachable {st : RoomState} (h : ReachableRS st) : SeqInv st := by
  induction h with
  | init => exact seqInv_init
  | proc roomId e st _ ih => exact seqInv_processEvent roomId e ih
  | clear roomId st _ ih => exact seqInv_clearRoom roomId ih

/-- C1.  In every reachable `RoomStateService` state, every room's stored
log `e₁ … eₙ` satisfies `eᵢ.sequence = i`: sequence numbers are assigned at
acceptance, strictly increasing by 1 starting at 1, with no gaps and no
repeats, and events appear in the log in sequence (= acceptance) order. -/
theorem log_sequence_numbers (st : RoomState) (h : ReachableRS st) (roomId : String) :
    SeqOk (st.store.events roomId) ∧
    ∀ i (hi : i < (st.store.events roomId).length),
      ((st.store.events roomId).get ⟨i, hi⟩).sequence = some (i + 1) := by
  have hok := (seqInv_reachable h roomId).2
  exact ⟨hok, fun i hi => seqOk_get hok i hi⟩

/-- Witness for C1: after two accepted submissions to `"room-1"`, the log's
events carry sequences 1 and 2 in order. -/
theorem log_sequence_numbers_witness :
    SeqOk (((processEvent "room-1" (drawAt 8)
        (processEvent "room-1" (drawAt 7) initRoomState).2).2).store.events "room-1") :=
  (log_sequence_numbers _
    (ReachableRS.proc "room-1" (drawAt 8) _
      (ReachableRS.proc "room-1" (drawAt 7) _ ReachableRS.init)) "room-1").1

lemma mem_setAdd {r x : String} {l : List String} : x ∈ setAdd r l ↔ x = r ∨ x ∈ l := by
  unfold setAdd
  by_cases h : r ∈ l
  · rw [if_pos h]
    constructor
    · exact Or.inr
    · rintro (rfl | hx)
      exacts [h, hx]
  · rw [if_neg h]
    simp [List.mem_append, or_comm]

lemma nodup_setAdd {r : String} {l : List String} (h : l.Nodup) : (setAdd r l).Nodup := by
  unfold setAdd
  by_cases hr : r ∈ l
  · rwa [if_pos hr]
  · rw [if_neg hr]
    rw [List.nodup_append]
    refine ⟨h, List.nodup_singleton r, ?_⟩
    intro a ha hb
    rw [List.mem_singleton] at hb
    subst hb
    exact hr ha

lemma activeInv_init : ActiveInv initRoomState := ⟨List.nodup_nil, fun _ _ => rfl⟩

lemma activeInv_processEvent (roomId : String) (e : WhiteboardEvent) {st : RoomState}
    (h : ActiveInv st) : ActiveInv (processEvent roomId e st).2 := by
  unfold processEvent
  dsimp only
  rcases hres : resolveConflict (getEvents roomId st.store) e with _ | resolved <;> dsimp only
  · refine ⟨nodup_setAdd h.1, ?_⟩
    intro r hr
    exact h.2 r (fun hmem => hr (mem_setAdd.mpr (Or.inr hmem)))
  · refine ⟨nodup_setAdd h.1, ?_⟩
    intro r hr
    have hrne : r ≠ roomId := fun hreq => hr (mem_setAdd.mpr (Or.inl hreq))
    unfold addEvent
    dsimp only
    rw [Function.update_noteq hrne]
    exact h.2 r (fun hmem => hr (mem_setAdd.mpr (Or.inr hmem)))

lemma activeInv_clearRoom (roomId : String) {st : RoomState} (h : ActiveInv st) :
    ActiveInv (clearRoom roomId st) := by
  unfold clearRoom clearRoomEvents
  refine ⟨h.1.erase roomId, ?_⟩
  intro r hr
  dsimp only at hr ⊢
  by_cases hrne : r = roomId
  · subst hrne
    rw [Function.update_same]
  · rw [Function.update_noteq hrne]
    refine h.2 r (fun hmem => hr ?_)
    exact (List.mem_erase_of_ne hrne).mpr hmem

lemma activeInv_reachable {st : RoomState} (h : ReachableRS st) : ActiveInv st := by
  induction h with
  | init => exact activeInv_init
  | proc roomId e st _ ih => exact activeInv_processEvent roomId e ih
  | clear roomId st _ ih => exact activeInv_clearRoom roomId ih

lemma getState_eq_events {st : RoomState} (h : ReachableRS st) (roomId : String) :
    getState roomId st = st.store.events roomId := by
  unfold getState getEvents
  by_cases hmem : roomId ∈ st.activeRooms
  · rw [if_pos hmem]
  · rw [if_neg hmem, (activeInv_reachable h).2 roomId hmem]

/-- C6.  In every reachable state, for every room and every sequence number
`afterSequence ≥ 0`, the incremental read `getEventsAfter` returns exactly
the snapshot's events with sequence strictly greater than `afterSequence`,
in log order; it is disjoint from the events with sequence ≤
`afterSequence`, together with which it is a permutation of (partitions)
the snapshot `getState`; and `getEventsAfter` at 0 equals `getState`. -/
theorem events_after_partitions_snapshot (st : RoomState) (h : ReachableRS st)
    (roomId : String) (afterSequence : ℕ) :
    getEventsAfterRS roomId afterSequence st
      = (getState roomId st).filter (fun e => decide (afterSequence < e.sequence.getD 0))
    ∧ (∀ e ∈ getEventsAfterRS roomId afterSequence st,
        e ∉ (getState roomId st).filter (fun e => decide (e.sequence.getD 0 ≤ afterSequence)))
    ∧ List.Perm
        (getEventsAfterRS roomId afterSequence st
          ++ (getState roomId st).filter (fun e => decide (e.sequence.getD 0 ≤ afterSequence)))
        (getState roomId st)
    ∧ getEventsAfterRS roomId 0 st = getState roomId st := by
  have hst := getState_eq_events h roomId
  have hfil : getEventsAfterRS roomId afterSequence st
      = (getState roomId st).filter (fun e => decide (afterSequence < e.sequence.getD 0)) := by
    unfold getEventsAfterRS getEventsAfter
    rw [hst]
  refine ⟨hfil, ?_, ?_, ?_⟩
  · intro e he hmem
    rw [hfil] at he
    have h1 := (List.mem_filter.mp he).2
    have h2 := (List.mem_filter.mp hmem).2
    simp only [decide_eq_true_eq] at h1 h2
    exact absurd h2 (not_le.mpr h1)
  · rw [hfil]
    have hfun : (fun e : WhiteboardEvent => decide (e.sequence.getD 0 ≤ afterSequence))
        = (fun e : WhiteboardEvent => !decide (afterSequence < e.sequence.getD 0)) := by
      funext e
      by_cases hle : e.sequence.getD 0 ≤ afterSequence
      · simp [hle, not_lt.mpr hle]
      · simp [hle, not_le.mp hle]
    rw [hfun]
    exact List.filter_append_perm _ (getState roomId st)
  · unfold getEventsAfterRS getEventsAfter
    rw [hst, List.filter_eq_self]
    intro e he
    have hok := (seqInv_reachable h roomId).2
    have hseq : e.sequence ∈ (st.store.events roomId).map (fun e => e.sequence) :=
      List.mem_map_of_mem (fun e => e.sequence) he
    rw [hok] at hseq
    rw [List.mem_map] at hseq
    obtain ⟨i, _, hi⟩ := hseq
    simp [← hi]

/-- Witness for C6, at the state with two stored events and
`afterSequence = 1`: the partition facts hold concretely. -/
theorem events_after_partitions_snapshot_witness :
    getEventsAfterRS "room-1" 0 ((processEvent "room-1" (drawAt 8)
        (processEvent "room-1" (drawAt 7) initRoomState).2).2)
      = getState "room-1" ((processEvent "room-1" (drawAt 8)
        (processEvent "room-1" (drawAt 7) initRoomState).2).2) :=
  (events_after_partitions_snapshot _
    (ReachableRS.proc "room-1" (drawAt 8) _
      (ReachableRS.proc "room-1" (drawAt 7) _ ReachableRS.init)) "room-1" 1).2.2.2

/-- C10.  In every reachable state, `clearRoom roomId` clears the room's
stored events and removes it from the active-rooms set: afterwards
`roomExists` is false, `getActiveRooms` no longer lists the room, and
`getState` returns `[]` — until a new event is processed for that room,
which makes it active again.  No other room's state or active-set
membership is affected. -/
theorem clearRoom_clears_and_frames (st : RoomState) (h : ReachableRS st) (roomId : String) :
    roomExists roomId (clearRoom roomId st) = false
    ∧ roomId ∉ getActiveRooms (clearRoom roomId st)
    ∧ getState roomId (clearRoom roomId st) = []
    ∧ (clearRoom roomId st).store.events roomId = []
    ∧ (clearRoom roomId st).store.seqs roomId = 0
    ∧ (∀ e, roomExists roomId (processEvent roomId e (clearRoom roomId st)).2 = true)
    ∧ ∀ r, r ≠ roomId →
        (clearRoom roomId st).store.events r = st.store.events r
        ∧ (clearRoom roomId st).store.seqs r = st.store.seqs r
        ∧ roomExists r (clearRoom roomId st) = roomExists r st
        ∧ getState r (clearRoom roomId st) = getState r st := by
  have hnodup := (activeInv_reachable h).1
  have hnotmem : roomId ∉ (clearRoom roomId st).activeRooms := by
    unfold clearRoom
    exact hnodup.not_mem_erase
  refine ⟨?_, hnotmem, ?_, ?_, ?_, ?_, ?_⟩
  · unfold roomExists
    exact decide_eq_false hnotmem
  · unfold getState
    rw [if_neg hnotmem]
  · unfold clearRoom clearRoomEvents
    dsimp only
    rw [Function.update_same]
  · unfold clearRoom clearRoomEvents
    dsimp only
    rw [Function.update_same]
  · intro e
    unfold processEvent roomExists
    dsimp only
    rcases resolveConflict (getEvents roomId (clearRoom roomId st).store) e with _ | resolved <;>
      · dsimp only
        exact decide_eq_true (mem_setAdd.mpr (Or.inl rfl))
  · intro r hrne
    have hev : (clearRoom roomId st).store.events r = st.store.events r := by
      unfold clearRoom clearRoomEvents
      dsimp only
      rw [Function.update_noteq hrne]
    have hmem : (r ∈ (clearRoom roomId st).activeRooms) ↔ r ∈ st.activeRooms := by
      unfold clearRoom
      dsimp only
      exact List.mem_erase_of_ne hrne
    refine ⟨hev, ?_, ?_, ?_⟩
    · unfold clearRoom clearRoomEvents
      dsimp only
      rw [Function.update_noteq hrne]
    · unfold roomExists
      by_cases hm : r ∈ st.activeRooms
      · rw [decide_eq_true (hmem.mpr hm), decide_eq_true hm]
      · rw [decide_eq_false (fun hm2 => hm (hmem.mp hm2)), decide_eq_false hm]
    · unfold getState getEvents
      by_cases hm : r ∈ st.activeRooms
      · rw [if_pos (hmem.mpr hm), if_pos hm, hev]
      · rw [if_neg (fun hm2 => hm (hmem.mp hm2)), if_neg hm]

/-- Witness for C10 at a concrete reachable state: after one accepted event
in `"room-1"`, clearing `"room-1"` makes `roomExists` false there. -/
theorem clearRoom_clears_and_frames_witness :
    roomExists "room-1"
      (clearRoom "room-1" (processEvent "room-1" (drawAt 7) initRoomState).2) = false :=
  (clearRoom_clears_and_frames _
    (ReachableRS.proc "room-1" (drawAt 7) _ ReachableRS.init) "room-1").1

lemma resolveConflict_drawing {existingEvents : List WhiteboardEvent}
    {e : WhiteboardEvent} (h : isDrawingEvent e = true) :
    resolveConflict existingEvents e = some e := by
  unfold resolveConflict
  rw [h]
  rfl

lemma processEvent_drawing (roomId : String) (e : WhiteboardEvent) (st : RoomState)
    (h : isDrawingEvent e = true) :
    processEvent roomId e st
      = (some { e with sequence := some (st.store.seqs roomId + 1) },
         { store := (addEvent roomId e st.store).2,
           activeRooms := setAdd roomId st.activeRooms }) := by
  unfold processEvent
  dsimp only
  rw [resolveConflict_drawing h]
  unfold addEvent
  dsimp only

lemma fillRoom_seqs (n : ℕ) : (fillRoom n).store.seqs "room-1" = n := by
  induction n with
  | zero => rfl
  | succ n ih =>
      show ((processEvent "room-1" fillEvent (fillRoom n)).2).store.seqs "room-1" = n + 1
      rw [processEvent_drawing "room-1" fillEvent (fillRoom n) rfl]
      unfold addEvent
      dsimp only
      rw [Function.update_same, ih]

lemma fillRoom_len (n : ℕ) : ((fillRoom n).store.events "room-1").length = n := by
  induction n with
  | zero => rfl
  | succ n ih =>
      show (((processEvent "room-1" fillEvent (fillRoom n)).2).store.events "room-1").length
        = n + 1
      rw [processEvent_drawing "room-1" fillEvent (fillRoom n) rfl]
      unfold addEvent
      dsimp only
      rw [Function.update_same, List.length_append, ih]
      rfl

lemma fillRoom_reach (n : ℕ) : ReachableRS (fillRoom n) := by
  induction n with
  | zero => exact ReachableRS.init
  | succ n ih => exact ReachableRS.proc "room-1" fillEvent (fillRoom n) ih

/-- Counterexample to C5: after `MAX_EVENTS_PER_ROOM` (10,000) accepted
events in `"room-1"`, a further submit is not rejected with a `Saturated`
error — it is accepted, stored with sequence 10,001, and the log grows to
10,001 events.  The cap constant is declared but never enforced. -/
theorem log_cap_not_enforced :
    ((fillRoom MAX_EVENTS_PER_ROOM).store.events "room-1").length = MAX_EVENTS_PER_ROOM
    ∧ (processEvent "room-1" fillEvent (fillRoom MAX_EVENTS_PER_ROOM)).1
        = some { fillEvent with sequence := some (MAX_EVENTS_PER_ROOM + 1) }
    ∧ ((processEvent "room-1" fillEvent
        (fillRoom MAX_EVENTS_PER_ROOM)).2.store.events "room-1").length
        = MAX_EVENTS_PER_ROOM + 1 := by
  refine ⟨fillRoom_len _, ?_, ?_⟩
  · rw [processEvent_drawing "room-1" fillEvent (fillRoom MAX_EVENTS_PER_ROOM) rfl]
    rw [fillRoom_seqs]
  · rw [processEvent_drawing "room-1" fillEvent (fillRoom MAX_EVENTS_PER_ROOM) rfl]
    unfold addEvent
    dsimp only
    rw [Function.update_same, List.length_append, fillRoom_len]
    rfl

/-- C5 (amended).  `processEvent` rejects a submit only when the conflict
resolver does — there is no `Saturated` path: regardless of the log's
length (in particular at or beyond the declared 10,000-event cap), an
accepted event is appended and the log grows by one. -/
theorem submit_never_saturates (st : RoomState) (roomId : String) (e : WhiteboardEvent) :
    ((processEvent roomId e st).1 = none ↔
        resolveConflict (st.store.events roomId) e = none)
    ∧ ((processEvent roomId e st).1 ≠ none →
        ((processEvent roomId e st).2.store.events roomId).length
          = (st.store.events roomId).length + 1) := by
  unfold processEvent getEvents
  dsimp only
  rcases hres : resolveConflict (st.store.events roomId) e with _ | resolved <;> dsimp only
  · exact ⟨by simp, fun hcontra => absurd rfl hcontra⟩
  · refine ⟨by simp, fun _ => ?_⟩
    unfold addEvent
    dsimp only
    rw [Function.update_same, List.length_append]
    rfl

/-- Witness for the amended C5: a first accepted event grows the empty log
to length 1; the no-rejection hypothesis is discharged concretely. -/
theorem submit_never_saturates_witness :
    ((processEvent "room-1" (drawAt 7) initRoomState).2.store.events "room-1").length
      = (initRoomState.store.events "room-1").length + 1 :=
  (submit_never_saturates initRoomState "room-1" (drawAt 7)).2 (by decide)

lemma handleClearCanvasConflict_some {l : List WhiteboardEvent} {e r : WhiteboardEvent}
    (h : handleClearCanvasConflict l e = some r) : r = e := by
  unfold handleClearCanvasConflict at h
  rcases hsort : sortByTsDesc (l.filter (fun x => x.type = EventType.CLEAR_CANVAS))
    with _ | ⟨m, t⟩
  · rw [hsort] at h
    exact (Option.some.inj h).symm
  · rw [hsort] at h
    dsimp only at h
    by_cases hcd : e.timestamp - m.timestamp < CLEAR_COOLDOWN_MS
    · rw [if_pos hcd] at h
      exact absurd h (by simp)
    · rw [if_neg hcd] at h
      exact (Option.some.inj h).symm

lemma resolveConflict_some {existingEvents : List WhiteboardEvent}
    {e resolved : WhiteboardEvent}
    (h : resolveConflict existingEvents e = some resolved) : resolved = e := by
  unfold resolveConflict at h
  by_cases h1 : isDrawingEvent e = true
  · rw [if_pos h1] at h
    exact (Option.some.inj h).symm
  · rw [if_neg h1] at h
    by_cases h2 : e.type = EventType.CLEAR_CANVAS
    · rw [if_pos h2] at h
      exact handleClearCanvasConflict_some h
    · rw [if_neg h2] at h
      by_cases h3 : isControlEvent e = true
      · rw [if_pos h3] at h
        exact (Option.some.inj h).symm
      · rw [if_neg h3] at h
        exact (Option.some.inj h).symm

lemma processEvent_events_subset (roomId : String) (e : WhiteboardEvent) (st : RoomState)
    (r : String) :
    ∀ x ∈ ((processEvent roomId e st).2).store.events r,
      x ∈ st.store.events r
      ∨ (r = roomId ∧ x = { e with sequence := some (st.store.seqs roomId + 1) }) := by
  unfold processEvent
  dsimp only
  rcases hres : resolveConflict (getEvents roomId st.store) e with _ | resolved <;> dsimp only
  · intro x hx
    exact Or.inl hx
  · intro x hx
    unfold addEvent at hx
    dsimp only at hx
    by_cases hr : r = roomId
    · subst hr
      rw [Function.update_same] at hx
      rcases List.mem_append.mp hx with hx | hx
      · exact Or.inl hx
      · rw [List.mem_singleton] at hx
        rw [resolveConflict_some hres] at hx
        exact Or.inr ⟨rfl, hx⟩
    · rw [Function.update_noteq hr] at hx
      exact Or.inl hx

/-- Counterexample to C4: on the HTTP `POST /events` path the
client-supplied `roomId` and `timestamp` are NOT overwritten — submitting
under route parameter `roomId = "A"` an event whose own fields say
`roomId = "B"`, `timestamp = 5` stores, in room `"A"`'s log, an event whose
`roomId` field is still `"B"` (≠ the room it was appended to) and whose
timestamp is still the client's 5; no server clock is consulted. -/
theorem http_post_keeps_client_fields :
    (handleEventSubmission "A" ccB initRoomState).2.store.events "A" = [storedClearB]
    ∧ storedClearB.roomId ≠ "A" := by
  constructor
  · rfl
  · decide

/-- C4 (amended).  On the WebSocket ingress path, `roomId` and `timestamp`
are overwritten from the session's current room and the server clock before
validation, so any event newly stored in a room's log by
`handleWhiteboardEvent` carries that room's id and the server timestamp.
On the HTTP `POST /events` path no overwriting occurs: a newly stored event
carries the client event's own `roomId` and `timestamp` fields (which need
not match the room whose log it joins). -/
theorem ingress_roomid_timestamp :
    (∀ st socket msg now roomId,
      ∀ x ∈ ((handleWhiteboardEvent socket msg now st).1).roomState.store.events roomId,
        x ∈ st.roomState.store.events roomId ∨ (x.roomId = roomId ∧ x.timestamp = now))
    ∧ (∀ st roomId ev,
      ∀ x ∈ ((handleEventSubmission roomId ev st).2).store.events roomId,
        x ∈ st.store.events roomId
        ∨ (x.roomId = (toWhiteboardEvent ev).roomId
           ∧ x.timestamp = (toWhiteboardEvent ev).timestamp)) := by
  constructor
  · intro st socket msg now roomId x hx
    unfold handleWhiteboardEvent at hx
    rcases hroom : getClientRoom socket st.conns with _ | rid
    · rw [hroom] at hx
      exact Or.inl hx
    · rw [hroom] at hx
      dsimp only at hx
      by_cases hval : validateEvent (normalizeEvent msg rid now) = true
      · rw [hval] at hx
        simp only [Bool.not_true, Bool.false_eq_true, if_false] at hx
        rcases hpe : processEvent rid (toWhiteboardEvent (sanitizeEvent (normalizeEvent msg rid now)))
            st.roomState with ⟨res, rs'⟩
        rw [hpe] at hx
        have hsub := processEvent_events_subset rid
          (toWhiteboardEvent (sanitizeEvent (normalizeEvent msg rid now))) st.roomState roomId
        rw [hpe] at hsub
        rcases res with _ | p <;> dsimp only at hx
        · rcases hsub x hx with hold | ⟨hreq, hxeq⟩
          · exact Or.inl hold
          · subst hreq
            refine Or.inr ⟨?_, ?_⟩ <;> rw [hxeq] <;> rfl
        · rcases hsub x hx with hold | ⟨hreq, hxeq⟩
          · exact Or.inl hold
          · subst hreq
            refine Or.inr ⟨?_, ?_⟩ <;> rw [hxeq] <;> rfl
      · rw [Bool.not_eq_true] at hval
        rw [hval] at hx
        simp only [Bool.not_false, if_true] at hx
        exact Or.inl hx
  · intro st roomId ev x hx
    unfold handleEventSubmission at hx
    by_cases hval : validateEvent ev = true
    · rw [hval] at hx
      simp only [Bool.not_true, Bool.false_eq_true, if_false] at hx
      rcases processEvent_events_subset roomId (toWhiteboardEvent (sanitizeEvent ev)) st roomId
          x hx with hold | ⟨_, hxeq⟩
      · exact Or.inl hold
      · refine Or.inr ⟨?_, ?_⟩ <;> rw [hxeq] <;> rfl
    · rw [Bool.not_eq_true] at hval
      rw [hval] at hx
      simp only [Bool.not_false, if_true] at hx
      exact Or.inl hx

/-- Witness for the amended C4: the event stored via the WebSocket path for
socket 0 (in room `"r1"`, server clock 99) carries `roomId = "r1"` and
`timestamp = 99`; the membership hypothesis is discharged concretely. -/
theorem ingress_roomid_timestamp_witness :
    storedClear99 ∈ wsSt1.roomState.store.events "r1"
    ∨ (storedClear99.roomId = "r1" ∧ storedClear99.timestamp = 99) :=
  ingress_roomid_timestamp.1 wsSt1 0 ccWire 99 "r1" storedClear99 (by decide)

/-- C8.  When a session in a room submits a whiteboard frame that fails
validation, the server replies `ERROR "Invalid event"` to the submitting
session only, the entire server state (in particular the room's log) is
unchanged, and nothing is broadcast. -/
theorem invalid_event_rejected_locally (st : WsServerState) (socket : ℕ) (msg : RawEvent)
    (now : ℚ) (roomId : String)
    (hroom : getClientRoom socket st.conns = some roomId)
    (hval : validateEvent (normalizeEvent msg roomId now) = false) :
    (handleWhiteboardEvent socket msg now st).1 = st
    ∧ (handleWhiteboardEvent socket msg now st).2
        = sendMessage socket (ServerMsg.errMsg "Invalid event") st
    ∧ ∀ p ∈ (handleWhiteboardEvent socket msg now st).2,
        p.1 = socket ∧ p.2 = ServerMsg.errMsg "Invalid event" := by
  have hred : handleWhiteboardEvent socket msg now st
      = (st, sendMessage socket (ServerMsg.errMsg "Invalid event") st) := by
    unfold handleWhiteboardEvent
    rw [hroom]
    dsimp only
    rw [hval]
    simp only [Bool.not_false, if_true]
  refine ⟨by rw [hred], by rw [hred], ?_⟩
  rw [hred]
  dsimp only
  unfold sendMessage
  by_cases hopen : st.isOpen socket = true
  · rw [if_pos hopen]
    intro p hp
    rw [List.mem_singleton] at hp
    subst hp
    exact ⟨rfl, rfl⟩
  · rw [Bool.not_eq_true] at hopen
    rw [hopen]
    simp only [Bool.false_eq_true, if_false]
    intro p hp
    exact absurd hp (List.not_mem_nil p)

/-- Witness for C8 (spec scenario S5): socket 0 in room `"r1"` submits a
`DRAW_LINE` with `color = "red"`; the server state is unchanged. -/
theorem invalid_event_rejected_locally_witness :
    (handleWhiteboardEvent 0 dlRed 99 wsSt1).1 = wsSt1
    ∧ (handleWhiteboardEvent 0 dlRed 99 wsSt1).2
        = sendMessage 0 (ServerMsg.errMsg "Invalid event") wsSt1 :=
  ⟨(invalid_event_rejected_locally wsSt1 0 dlRed 99 "r1" (by decide) (by decide)).1,
   (invalid_event_rejected_locally wsSt1 0 dlRed 99 "r1" (by decide) (by decide)).2.1⟩
